import Mathlib

/-!
Verification of the sleep-diary → GGIR advanced-sleeplog converter.

The definitions below are a shallow embedding of `src/convert_sleeplog.py`:
pandas timestamps become a plain record of calendar fields, the calendar
dict becomes an association list (with `setdefault` appending at the end),
`logger.warning` calls become an explicit list of (date, field) warning
events, and raised `ValueError`s become `Except.error`.  Python string
comparison, splitting and integer parsing are re-implemented over `List
Char` (code-point lexicographic order), since the behaviour of the source
depends on them.
-/

namespace SleepLog

/-- Naive local timestamp, the value carried by a parsed `pd.Timestamp`
(no timezone, per the source's scope). -/
structure Timestamp where
  year : Nat
  month : Nat
  day : Nat
  hour : Nat
  minute : Nat
  second : Nat
deriving DecidableEq

/-- Gregorian leap-year rule (as used by `datetime`/ `timedelta` arithmetic). -/
def isLeapYear (y : Nat) : Bool :=
  (y % 4 == 0 && y % 100 != 0) || y % 400 == 0

/-- Number of days in a month of the proleptic Gregorian calendar. -/
def daysInMonth (y m : Nat) : Nat :=
  if m = 2 then (if isLeapYear y then 29 else 28)
  else if m = 4 ∨ m = 6 ∨ m = 9 ∨ m = 11 then 30
  else 31

/-- Date one day earlier (year, month, day), the date arithmetic performed by
`dt - timedelta(days=1)`. -/
def prevDate (y m d : Nat) : Nat × Nat × Nat :=
  if 1 < d then (y, m, d - 1)
  else if 1 < m then (y, m - 1, daysInMonth y (m - 1))
  else (y - 1, 12, 31)

/-- Embeds `dt - timedelta(days=1)`: the date moves one day back, the clock
time is unchanged. -/
def subOneDay (dt : Timestamp) : Timestamp :=
  let p := prevDate dt.year dt.month dt.day
  { dt with year := p.1, month := p.2.1, day := p.2.2 }

/-- Zero-padded two-digit decimal rendering (strftime `%m`, `%d`, `%H`, `%M`, `%S`). -/
def pad2 (n : Nat) : String :=
  if n < 10 then "0" ++ toString n else toString n

/-- Zero-padded four-digit decimal rendering (strftime `%Y`). -/
def pad4 (n : Nat) : String :=
  if n < 10 then "000" ++ toString n
  else if n < 100 then "00" ++ toString n
  else if n < 1000 then "0" ++ toString n
  else toString n

/-- Embeds `strftime("%Y-%m-%d")` on a (year, month, day) date. -/
def fmtDate (y m d : Nat) : String :=
  pad4 y ++ "-" ++ pad2 m ++ "-" ++ pad2 d

/-- The date portion of a timestamp, rendered `YYYY-MM-DD`. -/
def strfDate (dt : Timestamp) : String :=
  fmtDate dt.year dt.month dt.day

/-- Embeds `fmt_time`: `strftime("%H:%M:%S")`. -/
def fmt_time (dt : Timestamp) : String :=
  pad2 dt.hour ++ ":" ++ pad2 dt.minute ++ ":" ++ pad2 dt.second

/-- Embeds `calendar_date_for_inbed` (src/convert_sleeplog.py:42-50): an
In_Bed timestamp before the cutoff hour is assigned to the previous
evening's calendar date. -/
def calendar_date_for_inbed (dt : Timestamp) (noon_cutoff : Nat) : String :=
  if dt.hour < noon_cutoff then strfDate (subOneDay dt) else strfDate dt

/-- Embeds `calendar_date_for_wakeup` (src/convert_sleeplog.py:53-58): a
wakeup belongs to the morning of its own calendar date. -/
def calendar_date_for_wakeup (dt : Timestamp) : String :=
  strfDate dt

/-- One calendar-date accumulator: the inner dict
`{"wakeup": "HH:MM:SS", "inbed": "HH:MM:SS"}` with possibly missing keys. -/
structure Entry where
  wakeup : Option String := none
  inbed : Option String := none
deriving DecidableEq

/-- State threaded through `build_calendar`: the calendar dict (as an
association list in insertion order, matching Python dict semantics) plus
the stream of duplicate warnings, each tagged (date, field). -/
structure CalState where
  cal : List (String × Entry)
  warnings : List (String × String)
deriving DecidableEq

/-- Dictionary lookup `calendar.get(d)`. -/
def lookupEntry (cal : List (String × Entry)) (d : String) : Option Entry :=
  (cal.find? (fun p => p.1 == d)).map (fun p => p.2)

/-- Replace the entry stored under key `d` (no-op on other keys). -/
def updateEntry (cal : List (String × Entry)) (d : String) (f : Entry → Entry) :
    List (String × Entry) :=
  cal.map (fun p => if p.1 == d then (p.1, f p.2) else p)

/-- Embeds the wakeup-placement block of `build_calendar`
(src/convert_sleeplog.py:82-88): `setdefault` the date's entry, set the
`wakeup` field if unset, otherwise keep the stored value and log a warning. -/
def placeWakeup (s : CalState) (dt : Timestamp) : CalState :=
  let d := calendar_date_for_wakeup dt
  match lookupEntry s.cal d with
  | none => { s with cal := s.cal ++ [(d, { wakeup := some (fmt_time dt) })] }
  | some e =>
    match e.wakeup with
    | none =>
        { s with cal := updateEntry s.cal d (fun e => { e with wakeup := some (fmt_time dt) }) }
    | some _ => { s with warnings := s.warnings ++ [(d, "wakeup")] }

/-- Embeds the inbed-placement block of `build_calendar`
(src/convert_sleeplog.py:91-97). -/
def placeInbed (noon_cutoff : Nat) (s : CalState) (dt : Timestamp) : CalState :=
  let d := calendar_date_for_inbed dt noon_cutoff
  match lookupEntry s.cal d with
  | none => { s with cal := s.cal ++ [(d, { inbed := some (fmt_time dt) })] }
  | some e =>
    match e.inbed with
    | none =>
        { s with cal := updateEntry s.cal d (fun e => { e with inbed := some (fmt_time dt) }) }
    | some _ => { s with warnings := s.warnings ++ [(d, "inbed")] }

/-- One parsed source row: the `out_bed_dt` / `in_bed_dt` columns, `none`
standing for `NaT`. -/
structure Row where
  out_bed_dt : Option Timestamp
  in_bed_dt : Option Timestamp
deriving DecidableEq

/-- One iteration of the `build_calendar` loop: place the wakeup, then the
inbed, skipping absent fields. -/
def processRow (noon_cutoff : Nat) (s : CalState) (r : Row) : CalState :=
  let s1 :=
    match r.out_bed_dt with
    | some dt => placeWakeup s dt
    | none => s
  match r.in_bed_dt with
  | some dt => placeInbed noon_cutoff s1 dt
  | none => s1

/-- Embeds `build_calendar` (src/convert_sleeplog.py:70-99). -/
def build_calendar (rows : List Row) (noon_cutoff : Nat) : CalState :=
  rows.foldl (processRow noon_cutoff) ⟨[], []⟩

/-- The stored wakeup time for calendar date `d`, if any. -/
def wakeupAt (s : CalState) (d : String) : Option String :=
  (lookupEntry s.cal d).bind (fun e => e.wakeup)

/-- The stored inbed time for calendar date `d`, if any. -/
def inbedAt (s : CalState) (d : String) : Option String :=
  (lookupEntry s.cal d).bind (fun e => e.inbed)

/-- Number of duplicate warnings emitted so far for a given (date, field)
pair. -/
def warnCount (s : CalState) (w : String × String) : Nat :=
  s.warnings.countP (fun x => decide (x = w))

/-- Whether a source row carries a wakeup timestamp that the calendar
builder would place on date `d`. -/
def assignsWakeup (d : String) (r : Row) : Bool :=
  match r.out_bed_dt with
  | some dt => calendar_date_for_wakeup dt == d
  | none => false

/-- Whether a source row carries a bedtime timestamp that the calendar
builder would place on date `d`. -/
def assignsInbed (noon_cutoff : Nat) (d : String) (r : Row) : Bool :=
  match r.in_bed_dt with
  | some dt => calendar_date_for_inbed dt noon_cutoff == d
  | none => false

/-- Python string `<=` on code points, on the underlying character lists. -/
def lexLe : List Char → List Char → Bool
  | [], _ => true
  | _ :: _, [] => false
  | a :: as, b :: bs =>
    if a.toNat < b.toNat then true
    else if b.toNat < a.toNat then false
    else lexLe as bs

/-- Python string comparison `a <= b` (lexicographic on code points). -/
def strLe (a b : String) : Bool :=
  lexLe a.data b.data

/-- Propositional form of `strLe`, the order used to sort calendar dates. -/
def dateLe (a b : String) : Prop :=
  strLe a b = true

instance : DecidableRel dateLe :=
  fun a b => inferInstanceAs (Decidable (strLe a b = true))

/-- Python truthiness of an optional string: `None` and `""` are falsy. -/
def truthy : Option String → Bool
  | none => false
  | some s => !s.data.isEmpty

/-- The `if start_date:` filter of `build_wide_row`
(src/convert_sleeplog.py:126-127): keep dates `d >= start_date`, skipped
entirely when `start_date` is `None` or empty. -/
def applyStartFilter (start_date : Option String) (dates : List String) : List String :=
  if truthy start_date then dates.filter (fun d => strLe (start_date.getD "") d)
  else dates

/-- The `if end_date:` filter of `build_wide_row`
(src/convert_sleeplog.py:128-129): keep dates `d <= end_date`. -/
def applyEndFilter (end_date : Option String) (dates : List String) : List String :=
  if truthy end_date then dates.filter (fun d => strLe d (end_date.getD ""))
  else dates

/-- The calendar dates a segment's row iterates over: all keys sorted
ascending (`sorted(calendar.keys())`), then range-filtered. -/
def filteredDates (cal : List (String × Entry)) (start_date end_date : Option String) :
    List String :=
  applyEndFilter end_date
    (applyStartFilter start_date (List.insertionSort dateLe (cal.map Prod.fst)))

/-- States that a date lies inside a segment's inclusive date range, an
absent bound being unbounded on that side (the spec's range condition). -/
def inRange (start_date end_date : Option String) (d : String) : Bool :=
  (match start_date with
   | some s => strLe s d
   | none => true) &&
  (match end_date with
   | some e => strLe d e
   | none => true)

/-- The header/value cells contributed by the surviving dates, 1-indexed:
the loop body of `build_wide_row` (src/convert_sleeplog.py:134-141). -/
def rowCells (cal : List (String × Entry)) : List String → Nat → List String × List String
  | [], _ => ([], [])
  | d :: ds, i =>
    let e := (lookupEntry cal d).getD ⟨none, none⟩
    let rest := rowCells cal ds (i + 1)
    (("D" ++ toString i ++ "_date") :: ("D" ++ toString i ++ "_wakeup") ::
       ("D" ++ toString i ++ "_inbed") :: rest.1,
     d :: e.wakeup.getD "" :: e.inbed.getD "" :: rest.2)

/-- Embeds `build_wide_row` (src/convert_sleeplog.py:106-143). -/
def build_wide_row (segment_id : String) (cal : List (String × Entry))
    (start_date end_date : Option String) : List String × List String :=
  let cells := rowCells cal (filteredDates cal start_date end_date) 1
  ("ID" :: cells.1, segment_id :: cells.2)

/-- One recording-segment descriptor (`{"id", "start_date", "end_date"}`). -/
structure Segment where
  id : String
  start_date : Option String := none
  end_date : Option String := none
deriving DecidableEq

/-- The values list `build_wide_row` produces for a segment. -/
def valuesOf (cal : List (String × Entry)) (s : Segment) : List String :=
  (build_wide_row s.id cal s.start_date s.end_date).2

/-- The header list `build_wide_row` produces for a segment. -/
def headerOf (cal : List (String × Entry)) (s : Segment) : List String :=
  (build_wide_row s.id cal s.start_date s.end_date).1

/-- The padding loop `while len(row) < max_cols: row.append("")`. -/
def padRight (n : Nat) (row : List String) : List String :=
  row ++ List.replicate (n - row.length) ""

/-- Accumulator loop of Python `max(xs, key=...)`: the current best is
replaced only when a strictly larger key appears, so the first maximal
element wins. -/
def maxByAux {α : Type} (key : α → Nat) (cur : α) : List α → α
  | [] => cur
  | y :: ys => maxByAux key (if key cur < key y then y else cur) ys

/-- Python `max(xs, key=...)`: `none` models the `ValueError` raised on an
empty sequence. -/
def pythonMax {α : Type} (key : α → Nat) : List α → Option α
  | [] => none
  | x :: xs => some (maxByAux key x xs)

/-- Embeds the table-assembly tail of `convert_sleeplog_in_memory`
(src/convert_sleeplog.py:178-205): build each segment's values row, pad
all rows to the widest, and take the header of the first longest-header
segment (Python `max(..., key=len)`), itself padded. -/
def assembleTable (cal : List (String × Entry)) (segments : List Segment) :
    Except String (List String × List (List String)) :=
  let rows := segments.map (valuesOf cal)
  let max_cols := rows.foldl (fun m r => Nat.max m r.length) 0
  let padded := rows.map (padRight max_cols)
  match pythonMax List.length (segments.map (headerOf cal)) with
  | none => Except.error "max() arg is an empty sequence"
  | some h => Except.ok (padRight max_cols h, padded)

/-- The maximum value-row length over a list of segments (the spec's
maxWidth); seeded at 0 like the source's running `max_cols`. -/
def maxRowWidth (cal : List (String × Entry)) (segments : List Segment) : Nat :=
  (segments.map (fun s => (valuesOf cal s).length)).foldl Nat.max 0

/-- Digit-string to number, `none` when empty or not all digits. -/
def digitsToNat : List Char → Option Nat
  | [] => none
  | cs =>
    if cs.all (fun c => c.isDigit) then
      some (cs.foldl (fun n c => 10 * n + (c.toNat - 48)) 0)
    else none

/-- Python `str.split(sep)` on a single separator character. -/
def splitOnChar (sep : Char) : List Char → List (List Char)
  | [] => [[]]
  | c :: rest =>
    let r := splitOnChar sep rest
    if c = sep then [] :: r
    else
      match r with
      | [] => [[c]]
      | h :: t => (c :: h) :: t

/-- Embeds `pd.to_datetime(s, format="%m/%d/%y %H:%M", errors="coerce")` on
one cell: strict parse against the fixed format (two-digit-year window
00-68 → 20xx, 69-99 → 19xx), `none` (`NaT`) on any failure. -/
def parseTimestamp (s : String) : Option Timestamp :=
  match splitOnChar ' ' s.data with
  | [datePart, timePart] =>
    match splitOnChar '/' datePart, splitOnChar ':' timePart with
    | [ms, ds, ys], [hs, mins] =>
      if ms.length ≤ 2 ∧ ds.length ≤ 2 ∧ ys.length ≤ 2 ∧ hs.length ≤ 2 ∧ mins.length ≤ 2 then
        match digitsToNat ms, digitsToNat ds, digitsToNat ys, digitsToNat hs, digitsToNat mins with
        | some m, some d, some y2, some h, some mi =>
          let y := if y2 ≤ 68 then 2000 + y2 else 1900 + y2
          if 1 ≤ m ∧ m ≤ 12 ∧ 1 ≤ d ∧ d ≤ daysInMonth y m ∧ h < 24 ∧ mi < 60 then
            some ⟨y, m, d, h, mi, 0⟩
          else none
        | _, _, _, _, _ => none
      else none
    | _, _ => none
  | _ => none

/-- One raw uploaded row: the `Out_Bed` / `In_Bed` cells as read from the
CSV, `none` standing for a missing cell (`NaN`). -/
structure RawRow where
  out_bed : Option String
  in_bed : Option String
deriving DecidableEq

/-- A raw row survives `dropna(subset=["Out_Bed", "In_Bed"], how="all")`
iff at least one of the two raw cells is present. -/
def usableRaw (r : RawRow) : Bool :=
  r.out_bed.isSome || r.in_bed.isSome

/-- Parse the two timestamp columns of one surviving raw row
(src/convert_sleeplog.py:173-174); a missing cell stays `NaT`. -/
def parseRaw (r : RawRow) : Row :=
  { out_bed_dt := r.out_bed.bind parseTimestamp,
    in_bed_dt := r.in_bed.bind parseTimestamp }

/-- Embeds `convert_sleeplog_in_memory` (src/convert_sleeplog.py:150-205):
drop rows with both raw timestamps missing, reject when nothing is left,
parse the remaining timestamps, build the calendar, and assemble the
wide table over the given segments. -/
def convert_sleeplog_in_memory (df : List RawRow) (segments : List Segment)
    (noon_cutoff : Nat) : Except String (List String × List (List String)) :=
  let df1 := df.filter usableRaw
  if df1.isEmpty then Except.error "No usable rows in the uploaded CSV."
  else
    assembleTable (build_calendar (df1.map parseRaw) noon_cutoff).cal segments

/-! ### Basic lookup lemmas -/

theorem lookupEntry_cons (p : String × Entry) (cal : List (String × Entry)) (d : String) :
    lookupEntry (p :: cal) d = if p.1 = d then some p.2 else lookupEntry cal d := by
  by_cases h : p.1 = d
  · have hb : (p.1 == d) = true := by simpa using h
    simp [lookupEntry, List.find?, hb, h]
  · have hb : (p.1 == d) = false := by simpa using h
    simp [lookupEntry, List.find?, hb, h]

theorem lookupEntry_append_left {cal₁ : List (String × Entry)} {d : String} {e : Entry}
    (cal₂ : List (String × Entry)) (h : lookupEntry cal₁ d = some e) :
    lookupEntry (cal₁ ++ cal₂) d = some e := by
  induction cal₁ with
  | nil => simp [lookupEntry] at h
  | cons p cal ih =>
    rw [lookupEntry_cons] at h
    rw [List.cons_append, lookupEntry_cons]
    by_cases hp : p.1 = d
    · simpa [hp] using h
    · rw [if_neg hp] at h ⊢; exact ih h

theorem lookupEntry_append_right {cal₁ : List (String × Entry)} {d : String}
    (cal₂ : List (String × Entry)) (h : lookupEntry cal₁ d = none) :
    lookupEntry (cal₁ ++ cal₂) d = lookupEntry cal₂ d := by
  induction cal₁ with
  | nil => simp
  | cons p cal ih =>
    rw [lookupEntry_cons] at h
    rw [List.cons_append, lookupEntry_cons]
    by_cases hp : p.1 = d
    · rw [if_pos hp] at h; exact absurd h (by simp)
    · rw [if_neg hp] at h ⊢; exact ih h

theorem lookupEntry_updateEntry_self (cal : List (String × Entry)) (d : String)
    (f : Entry → Entry) :
    lookupEntry (updateEntry cal d f) d = (lookupEntry cal d).map f := by
  induction cal with
  | nil => simp [updateEntry, lookupEntry]
  | cons p cal ih =>
    by_cases hp : p.1 = d
    · simp [updateEntry, lookupEntry_cons, hp]
    · simp only [updateEntry, List.map_cons] at ih ⊢
      rw [if_neg (by simpa using hp), lookupEntry_cons, if_neg hp, lookupEntry_cons, if_neg hp]
      exact ih

theorem lookupEntry_updateEntry_ne (cal : List (String × Entry)) {d d' : String}
    (f : Entry → Entry) (h : d ≠ d') :
    lookupEntry (updateEntry cal d f) d' = lookupEntry cal d' := by
  induction cal with
  | nil => simp [updateEntry, lookupEntry]
  | cons p cal ih =>
    by_cases hp : p.1 = d
    · simp only [updateEntry, List.map_cons]
      rw [if_pos (by simpa using hp), lookupEntry_cons, lookupEntry_cons]
      simp only [hp]
      rw [if_neg h, if_neg h]
      exact ih
    · simp only [updateEntry, List.map_cons]
      rw [if_neg (by simpa using hp), lookupEntry_cons, lookupEntry_cons]
      exact if_congr Iff.rfl rfl ih

theorem lookupEntry_singleton (d : String) (e : Entry) :
    lookupEntry [(d, e)] d = some e := by
  rw [lookupEntry_cons, if_pos rfl]

/-! ### C1: bedtime placement and the midnight-crossing rule -/

/-- C1: a present bedtime timestamp is assigned by the calendar builder to
the date portion of the timestamp when its hour is at least the noon
cutoff, and to the date portion minus one day when its hour is below the
cutoff; with cutoff 12, a bedtime 2025-01-02 01:30 lands on 2025-01-01 and
a bedtime 2025-01-02 13:30 lands on 2025-01-02. -/
theorem c1_inbed_placement (dt : Timestamp) (cutoff : Nat) :
    (cutoff ≤ dt.hour →
       calendar_date_for_inbed dt cutoff = fmtDate dt.year dt.month dt.day) ∧
    (dt.hour < cutoff →
       calendar_date_for_inbed dt cutoff =
         fmtDate (prevDate dt.year dt.month dt.day).1 (prevDate dt.year dt.month dt.day).2.1
           (prevDate dt.year dt.month dt.day).2.2) ∧
    inbedAt (build_calendar [⟨none, some dt⟩] cutoff) (calendar_date_for_inbed dt cutoff)
      = some (fmt_time dt) ∧
    calendar_date_for_inbed ⟨2025, 1, 2, 1, 30, 0⟩ 12 = "2025-01-01" ∧
    calendar_date_for_inbed ⟨2025, 1, 2, 13, 30, 0⟩ 12 = "2025-01-02" := by
  refine ⟨?_, ?_, ?_, by decide, by decide⟩
  · intro h
    rw [calendar_date_for_inbed, if_neg (by omega)]
    rfl
  · intro h
    rw [calendar_date_for_inbed, if_pos h]
    rfl
  · show inbedAt (processRow cutoff ⟨[], []⟩ ⟨none, some dt⟩) _ = _
    show inbedAt (placeInbed cutoff ⟨[], []⟩ dt) _ = _
    rw [placeInbed]
    simp only [lookupEntry, List.find?, Option.map_none]
    simp [inbedAt, List.nil_append, lookupEntry_singleton]

theorem c1_inbed_placement_witness :
    (12 ≤ (Timestamp.mk 2025 1 2 13 30 0).hour ∧
      calendar_date_for_inbed ⟨2025, 1, 2, 13, 30, 0⟩ 12 = fmtDate 2025 1 2) ∧
    ((Timestamp.mk 2025 1 2 1 30 0).hour < 12 ∧
      calendar_date_for_inbed ⟨2025, 1, 2, 1, 30, 0⟩ 12 =
        fmtDate (prevDate 2025 1 2).1 (prevDate 2025 1 2).2.1 (prevDate 2025 1 2).2.2) :=
  ⟨⟨by decide, (c1_inbed_placement ⟨2025, 1, 2, 13, 30, 0⟩ 12).1 (by decide)⟩,
   ⟨by decide, (c1_inbed_placement ⟨2025, 1, 2, 1, 30, 0⟩ 12).2.1 (by decide)⟩⟩

/-! ### C2: wakeup placement is cutoff-independent -/

/-- C2: a present wakeup timestamp is always assigned to the date component
of its own timestamp, for every value of the noon cutoff (the cutoff is
quantified and plays no role); a wakeup at 2025-01-02 01:30 lands on
2025-01-02. -/
theorem c2_wakeup_placement (dt : Timestamp) (cutoff : Nat) :
    calendar_date_for_wakeup dt = fmtDate dt.year dt.month dt.day ∧
    wakeupAt (build_calendar [⟨some dt, none⟩] cutoff) (calendar_date_for_wakeup dt)
      = some (fmt_time dt) ∧
    calendar_date_for_wakeup ⟨2025, 1, 2, 1, 30, 0⟩ = "2025-01-02" := by
  refine ⟨rfl, ?_, by decide⟩
  show wakeupAt (processRow cutoff ⟨[], []⟩ ⟨some dt, none⟩) _ = _
  show wakeupAt (placeWakeup ⟨[], []⟩ dt) _ = _
  rw [placeWakeup]
  simp only [lookupEntry, List.find?, Option.map_none]
  simp [wakeupAt, List.nil_append, lookupEntry_singleton]

/-! ### C9: header and values grow in lockstep -/

theorem rowCells_length (cal : List (String × Entry)) :
    ∀ (ds : List String) (i : Nat),
      (rowCells cal ds i).1.length = 3 * ds.length ∧
      (rowCells cal ds i).2.length = 3 * ds.length := by
  intro ds
  induction ds with
  | nil => intro i; simp [rowCells]
  | cons d ds ih =>
    intro i
    have h := ih (i + 1)
    simp only [rowCells, List.length_cons]
    constructor <;> omega

/-- C9: for every calendar, segment id and date bounds, the header and
values lists of build_wide_row have the same length, namely 1 + 3n where n
is the number of calendar dates surviving the range filter. -/
theorem c9_header_values_lockstep (segment_id : String) (cal : List (String × Entry))
    (start_date end_date : Option String) :
    (build_wide_row segment_id cal start_date end_date).1.length
      = (build_wide_row segment_id cal start_date end_date).2.length ∧
    (build_wide_row segment_id cal start_date end_date).2.length
      = 1 + 3 * (filteredDates cal start_date end_date).length := by
  have h := rowCells_length cal (filteredDates cal start_date end_date) 1
  simp only [build_wide_row, List.length_cons]
  omega

/-! ### C10: an empty-string bound behaves as an absent bound -/

/-- C10: build_wide_row treats an empty-string start or end bound exactly
like an absent bound — Python truthiness skips the corresponding filter
instead of comparing against the empty string. -/
theorem c10_empty_string_bound (segment_id : String) (cal : List (String × Entry))
    (b : Option String) :
    build_wide_row segment_id cal (some "") b = build_wide_row segment_id cal none b ∧
    build_wide_row segment_id cal b (some "") = build_wide_row segment_id cal b none := by
  constructor <;> rfl

/-! ### C6: a segment matching zero dates yields the minimal row -/

/-- C6: when a segment's date range matches zero calendar dates,
build_wide_row returns exactly the values list [segmentId] with header
[ID]; the function is total, so this is a non-fatal result. -/
theorem c6_empty_range_minimal_row (segment_id : String) (cal : List (String × Entry))
    (start_date end_date : Option String)
    (h : filteredDates cal start_date end_date = []) :
    build_wide_row segment_id cal start_date end_date = (["ID"], [segment_id]) := by
  rw [build_wide_row, h]
  rfl

theorem c6_empty_range_minimal_row_witness :
    filteredDates [("2025-01-01", ⟨some "08:00:00", none⟩)] (some "2026-01-01") none = [] ∧
    build_wide_row "SEG1" [("2025-01-01", ⟨some "08:00:00", none⟩)] (some "2026-01-01") none
      = (["ID"], ["SEG1"]) :=
  ⟨by decide,
   c6_empty_range_minimal_row "SEG1" [("2025-01-01", ⟨some "08:00:00", none⟩)]
     (some "2026-01-01") none (by decide)⟩

/-! ### Properties of the string order used for sorting dates -/

theorem lexLe_total : ∀ a b : List Char, lexLe a b = true ∨ lexLe b a = true := by
  intro a
  induction a with
  | nil => intro b; left; rfl
  | cons x xs ih =>
    intro b
    cases b with
    | nil => right; rfl
    | cons y ys =>
      by_cases h1 : x.toNat < y.toNat
      · left; simp [lexLe, h1]
      · by_cases h2 : y.toNat < x.toNat
        · right; simp [lexLe, h2]
        · rcases ih ys with h | h
          · left; simp [lexLe, h1, h2, h]
          · right; simp [lexLe, h1, h2, h]

theorem lexLe_trans :
    ∀ a b c : List Char, lexLe a b = true → lexLe b c = true → lexLe a c = true := by
  intro a
  induction a with
  | nil => intro b c _ _; rfl
  | cons x xs ih =>
    intro b c hab hbc
    cases b with
    | nil => simp [lexLe] at hab
    | cons y ys =>
      cases c with
      | nil => simp [lexLe] at hbc
      | cons z zs =>
        simp only [lexLe] at hab hbc ⊢
        by_cases hxy : x.toNat < y.toNat
        · by_cases hyz : y.toNat < z.toNat
          · simp [show x.toNat < z.toNat by omega]
          · by_cases hzy : z.toNat < y.toNat
            · simp [hyz, hzy] at hbc
            · simp [show x.toNat < z.toNat by omega]
        · by_cases hyx : y.toNat < x.toNat
          · simp [hxy, hyx] at hab
          · by_cases hyz : y.toNat < z.toNat
            · simp [show x.toNat < z.toNat by omega]
            · by_cases hzy : z.toNat < y.toNat
              · simp [hyz, hzy] at hbc
              · have hxz : ¬x.toNat < z.toNat := by omega
                have hzx : ¬z.toNat < x.toNat := by omega
                simp only [hxy, hyx, hxz, hzx, hyz, hzy, if_false, if_neg] at hab hbc ⊢
                exact ih ys zs hab hbc

instance : IsTotal String dateLe :=
  ⟨fun a b => lexLe_total a.data b.data⟩

instance : IsTrans String dateLe :=
  ⟨fun a b c => lexLe_trans a.data b.data c.data⟩

theorem data_isEmpty_false {s : String} (h : s ≠ "") : s.data.isEmpty = false := by
  obtain ⟨l⟩ := s
  cases l with
  | nil => exact absurd rfl h
  | cons c cs => rfl

/-! ### C8: inclusive range filtering over sorted calendar dates -/

theorem mem_filteredDates (cal : List (String × Entry)) (start_date end_date : Option String)
    (hs : start_date ≠ some "") (he : end_date ≠ some "") (d : String) :
    d ∈ filteredDates cal start_date end_date ↔
      d ∈ cal.map Prod.fst ∧ inRange start_date end_date d = true := by
  rw [filteredDates]
  cases start_date with
  | none =>
    cases end_date with
    | none =>
      simp [applyStartFilter, applyEndFilter, truthy, inRange, List.mem_insertionSort]
    | some e =>
      have hne : e ≠ "" := fun hc => he (by rw [hc])
      simp [applyStartFilter, applyEndFilter, truthy, data_isEmpty_false hne, inRange,
        List.mem_filter, List.mem_insertionSort, and_comm]
  | some s =>
    have hns : s ≠ "" := fun hc => hs (by rw [hc])
    cases end_date with
    | none =>
      simp [applyStartFilter, applyEndFilter, truthy, data_isEmpty_false hns, inRange,
        List.mem_filter, List.mem_insertionSort, and_comm]
    | some e =>
      have hne : e ≠ "" := fun hc => he (by rw [hc])
      simp only [applyStartFilter, applyEndFilter, truthy, data_isEmpty_false hns,
        data_isEmpty_false hne, Bool.not_false, if_true, Option.getD_some, List.mem_filter,
        List.mem_insertionSort, inRange, Bool.and_eq_true]
      tauto

theorem sorted_filteredDates (cal : List (String × Entry))
    (start_date end_date : Option String) :
    List.Sorted dateLe (filteredDates cal start_date end_date) := by
  have h0 : List.Sorted dateLe (List.insertionSort dateLe (cal.map Prod.fst)) :=
    List.sorted_insertionSort dateLe (cal.map Prod.fst)
  have h1 : List.Sorted dateLe (applyStartFilter start_date
      (List.insertionSort dateLe (cal.map Prod.fst))) := by
    rw [applyStartFilter]
    by_cases ht : truthy start_date
    · rw [if_pos ht]
      exact List.Pairwise.sublist (List.filter_sublist _) h0
    · rw [if_neg ht]
      exact h0
  rw [filteredDates, applyEndFilter]
  by_cases ht : truthy end_date
  · rw [if_pos ht]
    exact List.Pairwise.sublist (List.filter_sublist _) h1
  · rw [if_neg ht]
    exact h1

/-- C8: the calendar dates a segment's row keeps are exactly the calendar
keys d with startDate ≤ d (when a start bound is given) and d ≤ endDate
(when an end bound is given), both bounds inclusive and an absent bound
unbounded on its side; the surviving dates are sorted ascending in the
Python string order (lexicographic, chronological for ISO dates). -/
theorem c8_range_filter (cal : List (String × Entry)) (start_date end_date : Option String)
    (hs : start_date ≠ some "") (he : end_date ≠ some "") :
    (∀ d, d ∈ filteredDates cal start_date end_date ↔
       d ∈ cal.map Prod.fst ∧ inRange start_date end_date d = true) ∧
    List.Sorted dateLe (filteredDates cal start_date end_date) :=
  ⟨mem_filteredDates cal start_date end_date hs he,
   sorted_filteredDates cal start_date end_date⟩

theorem c8_range_filter_witness :
    (("2025-01-02" ∈ filteredDates
        [("2025-01-01", ⟨none, none⟩), ("2025-01-02", ⟨none, none⟩),
         ("2025-01-05", ⟨none, none⟩)] (some "2025-01-02") (some "2025-01-04")) ↔
      ("2025-01-02" ∈ ([("2025-01-01", ⟨none, none⟩), ("2025-01-02", ⟨none, none⟩),
         ("2025-01-05", ⟨none, none⟩)] : List (String × Entry)).map Prod.fst ∧
       inRange (some "2025-01-02") (some "2025-01-04") "2025-01-02" = true)) ∧
    filteredDates
        [("2025-01-01", ⟨none, none⟩), ("2025-01-02", ⟨none, none⟩),
         ("2025-01-05", ⟨none, none⟩)] (some "2025-01-02") (some "2025-01-04")
      = ["2025-01-02"] :=
  ⟨(c8_range_filter
      [("2025-01-01", ⟨none, none⟩), ("2025-01-02", ⟨none, none⟩),
       ("2025-01-05", ⟨none, none⟩)] (some "2025-01-02") (some "2025-01-04")
      (by decide) (by decide)).1 "2025-01-02",
   by decide⟩

/-! ### C3: first-write-wins with non-fatal duplicate warnings -/

theorem countP_append_single {α : Type} (p : α → Bool) (l : List α) (x : α) :
    (l ++ [x]).countP p = l.countP p + (if p x then 1 else 0) := by
  simp [List.countP_append, List.countP_cons]

theorem wakeupAt_mk (cal : List (String × Entry)) (w : List (String × String)) (d : String) :
    wakeupAt ⟨cal, w⟩ d = (lookupEntry cal d).bind (fun e => e.wakeup) :=
  rfl

theorem inbedAt_mk (cal : List (String × Entry)) (w : List (String × String)) (d : String) :
    inbedAt ⟨cal, w⟩ d = (lookupEntry cal d).bind (fun e => e.inbed) :=
  rfl

theorem wakeupAt_def (s : CalState) (d : String) :
    wakeupAt s d = (lookupEntry s.cal d).bind (fun e => e.wakeup) :=
  rfl

theorem inbedAt_def (s : CalState) (d : String) :
    inbedAt s d = (lookupEntry s.cal d).bind (fun e => e.inbed) :=
  rfl

theorem warnCount_mk (cal : List (String × Entry)) (w : List (String × String))
    (x : String × String) :
    warnCount ⟨cal, w⟩ x = w.countP (fun y => decide (y = x)) :=
  rfl

theorem warnCount_def (s : CalState) (x : String × String) :
    warnCount s x = s.warnings.countP (fun y => decide (y = x)) :=
  rfl

theorem placeWakeup_eq (s : CalState) (dt : Timestamp) :
    placeWakeup s dt =
      match lookupEntry s.cal (calendar_date_for_wakeup dt) with
      | none =>
          ⟨s.cal ++ [(calendar_date_for_wakeup dt, ⟨some (fmt_time dt), none⟩)], s.warnings⟩
      | some e =>
        match e.wakeup with
        | none =>
            ⟨updateEntry s.cal (calendar_date_for_wakeup dt)
               (fun e => ⟨some (fmt_time dt), e.inbed⟩), s.warnings⟩
        | some _ =>
            ⟨s.cal, s.warnings ++ [(calendar_date_for_wakeup dt, "wakeup")]⟩ :=
  rfl

theorem placeInbed_eq (noon_cutoff : Nat) (s : CalState) (dt : Timestamp) :
    placeInbed noon_cutoff s dt =
      match lookupEntry s.cal (calendar_date_for_inbed dt noon_cutoff) with
      | none =>
          ⟨s.cal ++ [(calendar_date_for_inbed dt noon_cutoff, ⟨none, some (fmt_time dt)⟩)],
           s.warnings⟩
      | some e =>
        match e.inbed with
        | none =>
            ⟨updateEntry s.cal (calendar_date_for_inbed dt noon_cutoff)
               (fun e => ⟨e.wakeup, some (fmt_time dt)⟩), s.warnings⟩
        | some _ =>
            ⟨s.cal, s.warnings ++ [(calendar_date_for_inbed dt noon_cutoff, "inbed")]⟩ :=
  rfl

theorem placeWakeup_wakeup_spec {s : CalState} {d v : String} (dt : Timestamp)
    (h : wakeupAt s d = some v) :
    wakeupAt (placeWakeup s dt) d = some v ∧
    warnCount (placeWakeup s dt) (d, "wakeup")
      = warnCount s (d, "wakeup")
        + (if calendar_date_for_wakeup dt = d then 1 else 0) := by
  obtain ⟨e, hl, hw⟩ : ∃ e, lookupEntry s.cal d = some e ∧ e.wakeup = some v := by
    rw [wakeupAt_def] at h
    cases hl : lookupEntry s.cal d with
    | none => rw [hl] at h; exact absurd h (by simp)
    | some e => rw [hl] at h; exact ⟨e, rfl, h⟩
  by_cases hdd : calendar_date_for_wakeup dt = d
  · simp only [placeWakeup_eq, hdd, hl, hw]
    refine ⟨h, ?_⟩
    rw [warnCount_mk, warnCount_def, countP_append_single]
    simp
  · cases hl2 : lookupEntry s.cal (calendar_date_for_wakeup dt) with
    | none =>
      simp only [placeWakeup_eq, hl2]
      refine ⟨?_, ?_⟩
      · rw [wakeupAt_mk, lookupEntry_append_left _ hl]
        exact hw
      · rw [warnCount_mk, warnCount_def, if_neg hdd]
        simp
    | some e2 =>
      cases hw2 : e2.wakeup with
      | none =>
        simp only [placeWakeup_eq, hl2, hw2]
        refine ⟨?_, ?_⟩
        · rw [wakeupAt_mk, lookupEntry_updateEntry_ne _ _ hdd, hl]
          exact hw
        · rw [warnCount_mk, warnCount_def, if_neg hdd]
          simp
      | some t =>
        simp only [placeWakeup_eq, hl2, hw2]
        refine ⟨h, ?_⟩
        rw [warnCount_mk, warnCount_def, countP_append_single, if_neg hdd]
        simp [Prod.ext_iff, hdd]

theorem placeWakeup_inbed_invariant (s : CalState) (dt : Timestamp) (d : String) :
    inbedAt (placeWakeup s dt) d = inbedAt s d ∧
    ∀ x : String, warnCount (placeWakeup s dt) (x, "inbed") = warnCount s (x, "inbed") := by
  cases hl2 : lookupEntry s.cal (calendar_date_for_wakeup dt) with
  | none =>
    simp only [placeWakeup_eq, hl2]
    refine ⟨?_, fun x => rfl⟩
    rw [inbedAt_mk, inbedAt_def]
    cases hl : lookupEntry s.cal d with
    | none =>
      rw [lookupEntry_append_right _ hl, lookupEntry_cons]
      by_cases hdd : calendar_date_for_wakeup dt = d
      · rw [if_pos hdd]; rfl
      · rw [if_neg hdd]; rfl
    | some e => rw [lookupEntry_append_left _ hl]
  | some e2 =>
    cases hw2 : e2.wakeup with
    | none =>
      simp only [placeWakeup_eq, hl2, hw2]
      refine ⟨?_, fun x => rfl⟩
      rw [inbedAt_mk, inbedAt_def]
      by_cases hdd : calendar_date_for_wakeup dt = d
      · subst hdd
        rw [lookupEntry_updateEntry_self, hl2]
        rfl
      · rw [lookupEntry_updateEntry_ne _ _ hdd]
    | some t =>
      simp only [placeWakeup_eq, hl2, hw2]
      refine ⟨rfl, fun x => ?_⟩
      rw [warnCount_mk, warnCount_def, countP_append_single]
      simp [Prod.ext_iff]

theorem placeInbed_inbed_spec {s : CalState} {d v : String} (noon_cutoff : Nat) (dt : Timestamp)
    (h : inbedAt s d = some v) :
    inbedAt (placeInbed noon_cutoff s dt) d = some v ∧
    warnCount (placeInbed noon_cutoff s dt) (d, "inbed")
      = warnCount s (d, "inbed")
        + (if calendar_date_for_inbed dt noon_cutoff = d then 1 else 0) := by
  obtain ⟨e, hl, hw⟩ : ∃ e, lookupEntry s.cal d = some e ∧ e.inbed = some v := by
    rw [inbedAt_def] at h
    cases hl : lookupEntry s.cal d with
    | none => rw [hl] at h; exact absurd h (by simp)
    | some e => rw [hl] at h; exact ⟨e, rfl, h⟩
  by_cases hdd : calendar_date_for_inbed dt noon_cutoff = d
  · simp only [placeInbed_eq, hdd, hl, hw]
    refine ⟨h, ?_⟩
    rw [warnCount_mk, warnCount_def, countP_append_single]
    simp
  · cases hl2 : lookupEntry s.cal (calendar_date_for_inbed dt noon_cutoff) with
    | none =>
      simp only [placeInbed_eq, hl2]
      refine ⟨?_, ?_⟩
      · rw [inbedAt_mk, lookupEntry_append_left _ hl]
        exact hw
      · rw [warnCount_mk, warnCount_def, if_neg hdd]
        simp
    | some e2 =>
      cases hw2 : e2.inbed with
      | none =>
        simp only [placeInbed_eq, hl2, hw2]
        refine ⟨?_, ?_⟩
        · rw [inbedAt_mk, lookupEntry_updateEntry_ne _ _ hdd, hl]
          exact hw
        · rw [warnCount_mk, warnCount_def, if_neg hdd]
          simp
      | some t =>
        simp only [placeInbed_eq, hl2, hw2]
        refine ⟨h, ?_⟩
        rw [warnCount_mk, warnCount_def, countP_append_single, if_neg hdd]
        simp [Prod.ext_iff, hdd]

theorem placeInbed_wakeup_invariant (noon_cutoff : Nat) (s : CalState) (dt : Timestamp)
    (d : String) :
    wakeupAt (placeInbed noon_cutoff s dt) d = wakeupAt s d ∧
    ∀ x : String,
      warnCount (placeInbed noon_cutoff s dt) (x, "wakeup") = warnCount s (x, "wakeup") := by
  cases hl2 : lookupEntry s.cal (calendar_date_for_inbed dt noon_cutoff) with
  | none =>
    simp only [placeInbed_eq, hl2]
    refine ⟨?_, fun x => rfl⟩
    rw [wakeupAt_mk, wakeupAt_def]
    cases hl : lookupEntry s.cal d with
    | none =>
      rw [lookupEntry_append_right _ hl, lookupEntry_cons]
      by_cases hdd : calendar_date_for_inbed dt noon_cutoff = d
      · rw [if_pos hdd]; rfl
      · rw [if_neg hdd]; rfl
    | some e => rw [lookupEntry_append_left _ hl]
  | some e2 =>
    cases hw2 : e2.inbed with
    | none =>
      simp only [placeInbed_eq, hl2, hw2]
      refine ⟨?_, fun x => rfl⟩
      rw [wakeupAt_mk, wakeupAt_def]
      by_cases hdd : calendar_date_for_inbed dt noon_cutoff = d
      · subst hdd
        rw [lookupEntry_updateEntry_self, hl2]
        rfl
      · rw [lookupEntry_updateEntry_ne _ _ hdd]
    | some t =>
      simp only [placeInbed_eq, hl2, hw2]
      refine ⟨rfl, fun x => ?_⟩
      rw [warnCount_mk, warnCount_def, countP_append_single]
      simp [Prod.ext_iff]

theorem processRow_wakeup_spec {s : CalState} {d v : String} (noon_cutoff : Nat) (r : Row)
    (h : wakeupAt s d = some v) :
    wakeupAt (processRow noon_cutoff s r) d = some v ∧
    warnCount (processRow noon_cutoff s r) (d, "wakeup")
      = warnCount s (d, "wakeup") + (if assignsWakeup d r then 1 else 0) := by
  rw [processRow]
  cases hob : r.out_bed_dt with
  | none =>
    cases hib : r.in_bed_dt with
    | none => simpa [assignsWakeup, hob] using h
    | some dti =>
      have hi := placeInbed_wakeup_invariant noon_cutoff s dti d
      rw [hi.1, hi.2 d]
      simpa [assignsWakeup, hob] using h
  | some dto =>
    have h1 := placeWakeup_wakeup_spec dto h
    have hcond : (if assignsWakeup d r then 1 else 0)
        = (if calendar_date_for_wakeup dto = d then 1 else 0) := by
      simp [assignsWakeup, hob]
    cases hib : r.in_bed_dt with
    | none => exact ⟨h1.1, by rw [h1.2, hcond]⟩
    | some dti =>
      have hi := placeInbed_wakeup_invariant noon_cutoff (placeWakeup s dto) dti d
      exact ⟨by rw [hi.1]; exact h1.1, by rw [hi.2 d, h1.2, hcond]⟩

theorem processRow_inbed_spec {s : CalState} {d v : String} (noon_cutoff : Nat) (r : Row)
    (h : inbedAt s d = some v) :
    inbedAt (processRow noon_cutoff s r) d = some v ∧
    warnCount (processRow noon_cutoff s r) (d, "inbed")
      = warnCount s (d, "inbed") + (if assignsInbed noon_cutoff d r then 1 else 0) := by
  rw [processRow]
  cases hob : r.out_bed_dt with
  | none =>
    cases hib : r.in_bed_dt with
    | none => simpa [assignsInbed, hib] using h
    | some dti =>
      have h1 := placeInbed_inbed_spec noon_cutoff dti h
      have hcond : (if assignsInbed noon_cutoff d r then 1 else 0)
          = (if calendar_date_for_inbed dti noon_cutoff = d then 1 else 0) := by
        simp [assignsInbed, hib]
      exact ⟨h1.1, by rw [h1.2, hcond]⟩
  | some dto =>
    have hw := placeWakeup_inbed_invariant s dto d
    have h' : inbedAt (placeWakeup s dto) d = some v := by rw [hw.1]; exact h
    cases hib : r.in_bed_dt with
    | none =>
      refine ⟨h', ?_⟩
      rw [hw.2 d]
      simp [assignsInbed, hib]
    | some dti =>
      have h1 := placeInbed_inbed_spec noon_cutoff dti h'
      have hcond : (if assignsInbed noon_cutoff d r then 1 else 0)
          = (if calendar_date_for_inbed dti noon_cutoff = d then 1 else 0) := by
        simp [assignsInbed, hib]
      exact ⟨h1.1, by rw [h1.2, hw.2 d, hcond]⟩

theorem foldl_wakeup_spec (noon_cutoff : Nat) (d v : String) :
    ∀ (rest : List Row) (s : CalState), wakeupAt s d = some v →
      wakeupAt (rest.foldl (processRow noon_cutoff) s) d = some v ∧
      warnCount (rest.foldl (processRow noon_cutoff) s) (d, "wakeup")
        = warnCount s (d, "wakeup") + rest.countP (assignsWakeup d) := by
  intro rest
  induction rest with
  | nil => intro s h; exact ⟨h, by simp⟩
  | cons r rs ih =>
    intro s h
    have h1 := processRow_wakeup_spec noon_cutoff r h
    have h2 := ih (processRow noon_cutoff s r) h1.1
    rw [List.foldl_cons]
    refine ⟨h2.1, ?_⟩
    rw [h2.2, h1.2, List.countP_cons]
    by_cases ha : assignsWakeup d r
    · simp [ha]
      omega
    · simp [ha]

theorem foldl_inbed_spec (noon_cutoff : Nat) (d v : String) :
    ∀ (rest : List Row) (s : CalState), inbedAt s d = some v →
      inbedAt (rest.foldl (processRow noon_cutoff) s) d = some v ∧
      warnCount (rest.foldl (processRow noon_cutoff) s) (d, "inbed")
        = warnCount s (d, "inbed") + rest.countP (assignsInbed noon_cutoff d) := by
  intro rest
  induction rest with
  | nil => intro s h; exact ⟨h, by simp⟩
  | cons r rs ih =>
    intro s h
    have h1 := processRow_inbed_spec noon_cutoff r h
    have h2 := ih (processRow noon_cutoff s r) h1.1
    rw [List.foldl_cons]
    refine ⟨h2.1, ?_⟩
    rw [h2.2, h1.2, List.countP_cons]
    by_cases ha : assignsInbed noon_cutoff d r
    · simp [ha]
      omega
    · simp [ha]

/-- C3: once a calendar field (wakeup or inbed) for a date has been set by
processing an episode prefix, processing any further episodes leaves the
stored value unchanged (first-write-wins), and every later episode
assigning to the same date and field adds exactly one non-fatal
duplicate warning (the build still completes with the value intact). -/
theorem c3_first_write_wins (noon_cutoff : Nat) (es rest : List Row) (d v : String) :
    (wakeupAt (build_calendar es noon_cutoff) d = some v →
       wakeupAt (build_calendar (es ++ rest) noon_cutoff) d = some v ∧
       warnCount (build_calendar (es ++ rest) noon_cutoff) (d, "wakeup")
         = warnCount (build_calendar es noon_cutoff) (d, "wakeup")
           + rest.countP (assignsWakeup d)) ∧
    (inbedAt (build_calendar es noon_cutoff) d = some v →
       inbedAt (build_calendar (es ++ rest) noon_cutoff) d = some v ∧
       warnCount (build_calendar (es ++ rest) noon_cutoff) (d, "inbed")
         = warnCount (build_calendar es noon_cutoff) (d, "inbed")
           + rest.countP (assignsInbed noon_cutoff d)) := by
  rw [build_calendar, build_calendar, List.foldl_append]
  exact ⟨fun h => foldl_wakeup_spec noon_cutoff d v rest _ h,
         fun h => foldl_inbed_spec noon_cutoff d v rest _ h⟩

theorem c3_first_write_wins_witness :
    inbedAt (build_calendar
        ([⟨none, some ⟨2025, 1, 1, 22, 0, 0⟩⟩] ++ [⟨none, some ⟨2025, 1, 1, 23, 15, 0⟩⟩]) 12)
        "2025-01-01" = some "22:00:00" ∧
    warnCount (build_calendar
        ([⟨none, some ⟨2025, 1, 1, 22, 0, 0⟩⟩] ++ [⟨none, some ⟨2025, 1, 1, 23, 15, 0⟩⟩]) 12)
        ("2025-01-01", "inbed")
      = warnCount (build_calendar [⟨none, some ⟨2025, 1, 1, 22, 0, 0⟩⟩] 12)
          ("2025-01-01", "inbed")
        + [(⟨none, some ⟨2025, 1, 1, 23, 15, 0⟩⟩ : Row)].countP (assignsInbed 12 "2025-01-01") :=
  (c3_first_write_wins 12 [⟨none, some ⟨2025, 1, 1, 22, 0, 0⟩⟩]
      [⟨none, some ⟨2025, 1, 1, 23, 15, 0⟩⟩] "2025-01-01" "22:00:00").2 (by decide)

/-! ### C4: no explicit empty-segment rejection exists -/

/-- C4 (refuted, code bug): with a valid non-empty diary and an empty
segment list, convert_sleeplog_in_memory does not reject the empty segment
list with an explicit fatal error before table assembly; instead table
assembly is reached with zero segments and the failure is the generic
Python max() error raised while picking the widest header inside the
assembly step. -/
theorem c4_no_empty_segment_check :
    convert_sleeplog_in_memory [⟨some "01/02/25 08:00", some "01/01/25 22:00"⟩] [] 12
      = Except.error "max() arg is an empty sequence" ∧
    assembleTable
        (build_calendar [parseRaw ⟨some "01/02/25 08:00", some "01/01/25 22:00"⟩] 12).cal []
      = Except.error "max() arg is an empty sequence" :=
  ⟨rfl, rfl⟩

/-! ### C5: the usable-rows check runs on raw cells, before parsing -/

/-- C5 counterexample: an episode list whose every timestamp is present but
unparseable (so absent after parsing, which the claim counts as absent)
does not raise the no-usable-rows error — the conversion succeeds and
returns a table. -/
theorem c5_counterexample_unparseable_rows :
    parseTimestamp "notadate" = none ∧
    parseTimestamp "alsonot" = none ∧
    convert_sleeplog_in_memory [⟨some "notadate", some "alsonot"⟩]
        [⟨"S1", none, none⟩] 12
      = Except.ok (["ID"], [["S1"]]) :=
  ⟨by decide, by decide, rfl⟩

theorem assembleTable_error_msg (cal : List (String × Entry)) (segments : List Segment)
    (m : String) (h : assembleTable cal segments = Except.error m) :
    m = "max() arg is an empty sequence" := by
  cases segments with
  | nil =>
    simp only [assembleTable, List.map_nil, pythonMax] at h
    exact ((Except.error.injEq _ _).mp h).symm
  | cons s ss =>
    simp only [assembleTable, List.map_cons, pythonMax] at h
    exact (Except.noConfusion h)

/-- C5 amended: the conversion raises the fatal no-usable-rows error exactly
when every raw input row has both timestamp cells absent; absence is judged
on the raw cells before parsing, so rows with present but unparseable
timestamps count as usable and do not trigger the error. -/
theorem c5_no_usable_rows_iff (df : List RawRow) (segments : List Segment) (cutoff : Nat) :
    convert_sleeplog_in_memory df segments cutoff
        = Except.error "No usable rows in the uploaded CSV."
      ↔ ∀ r ∈ df, r.out_bed = none ∧ r.in_bed = none := by
  have husable : ∀ r : RawRow, ¬usableRaw r = true ↔ (r.out_bed = none ∧ r.in_bed = none) := by
    intro r
    rcases r with ⟨ob, ib⟩
    cases ob <;> cases ib <;> simp [usableRaw]
  rw [convert_sleeplog_in_memory]
  by_cases h : (df.filter usableRaw).isEmpty
  · rw [if_pos h]
    simp only [List.isEmpty_iff, List.filter_eq_nil_iff] at h
    constructor
    · intro _ r hr
      exact (husable r).mp (h r hr)
    · intro _; rfl
  · rw [if_neg h]
    simp only [List.isEmpty_iff, List.filter_eq_nil_iff] at h
    push_neg at h
    obtain ⟨r, hr, hu⟩ := h
    constructor
    · intro habs
      exact absurd (assembleTable_error_msg _ _ _ habs) (by decide)
    · intro hall
      exact absurd hu ((husable r).mpr (hall r hr))

theorem c5_no_usable_rows_iff_witness :
    convert_sleeplog_in_memory [⟨none, none⟩, ⟨none, none⟩] [⟨"S1", none, none⟩] 12
      = Except.error "No usable rows in the uploaded CSV." :=
  (c5_no_usable_rows_iff [⟨none, none⟩, ⟨none, none⟩] [⟨"S1", none, none⟩] 12).mpr
    (by decide)

/-! ### C7: rectangular table assembly with first-widest header -/

theorem maxByAux_split {α : Type} (key : α → Nat) :
    ∀ (l : List α) (cur : α),
      ∃ l₁ l₂, cur :: l = l₁ ++ maxByAux key cur l :: l₂ ∧
        (∀ y ∈ cur :: l, key y ≤ key (maxByAux key cur l)) ∧
        (∀ y ∈ l₁, key y < key (maxByAux key cur l)) := by
  intro l
  induction l with
  | nil =>
    intro cur
    exact ⟨[], [], rfl, by simp [maxByAux], by simp⟩
  | cons y ys ih =>
    intro cur
    by_cases hc : key cur < key y
    · obtain ⟨m₁, m₂, hsp, hmax, hbef⟩ := ih y
      have hres : maxByAux key cur (y :: ys) = maxByAux key y ys := by
        simp [maxByAux, hc]
      rw [hres]
      refine ⟨cur :: m₁, m₂, ?_, ?_, ?_⟩
      · rw [List.cons_append, ← hsp]
      · intro z hz
        rcases List.mem_cons.mp hz with rfl | hz2
        · exact le_of_lt (lt_of_lt_of_le hc (hmax y (List.mem_cons_self _ _)))
        · exact hmax z hz2
      · intro z hz
        rcases List.mem_cons.mp hz with rfl | hz2
        · exact lt_of_lt_of_le hc (hmax y (List.mem_cons_self _ _))
        · exact hbef z hz2
    · obtain ⟨m₁, m₂, hsp, hmax, hbef⟩ := ih cur
      have hres : maxByAux key cur (y :: ys) = maxByAux key cur ys := by
        simp [maxByAux, hc]
      rw [hres]
      cases m₁ with
      | nil =>
        rw [List.nil_append] at hsp
        have hcur : cur = maxByAux key cur ys := (List.cons_eq_cons.mp hsp).1
        refine ⟨[], y :: ys, ?_, ?_, by simp⟩
        · rw [List.nil_append, ← hcur]
        · intro z hz
          rcases List.mem_cons.mp hz with rfl | hz2
          · exact le_of_eq (congrArg key hcur)
          · rcases List.mem_cons.mp hz2 with rfl | hz3
            · exact le_trans (not_lt.mp hc) (le_of_eq (congrArg key hcur))
            · exact hmax z (List.mem_cons_of_mem _ hz3)
      | cons a m₁' =>
        rw [List.cons_append] at hsp
        obtain ⟨hca, hys⟩ := List.cons_eq_cons.mp hsp
        have hcurmem : cur ∈ a :: m₁' := by rw [← hca]; exact List.mem_cons_self _ _
        refine ⟨cur :: y :: m₁', m₂, ?_, ?_, ?_⟩
        · rw [List.cons_append, List.cons_append]
          exact congrArg (fun t => cur :: y :: t) hys
        · intro z hz
          rcases List.mem_cons.mp hz with rfl | hz2
          · exact hmax z (List.mem_cons_self _ _)
          · rcases List.mem_cons.mp hz2 with rfl | hz3
            · exact le_trans (not_lt.mp hc) (hmax cur (List.mem_cons_self _ _))
            · exact hmax z (List.mem_cons_of_mem _ hz3)
        · intro z hz
          rcases List.mem_cons.mp hz with rfl | hz2
          · exact hbef z hcurmem
          · rcases List.mem_cons.mp hz2 with rfl | hz3
            · exact lt_of_le_of_lt (not_lt.mp hc) (hbef cur hcurmem)
            · exact hbef z (List.mem_cons_of_mem _ hz3)

theorem maxByAux_map {α β : Type} (f : α → β) (key : β → Nat) :
    ∀ (l : List α) (cur : α),
      maxByAux key (f cur) (l.map f) = f (maxByAux (fun a => key (f a)) cur l) := by
  intro l
  induction l with
  | nil => intro cur; rfl
  | cons y ys ih =>
    intro cur
    simp only [List.map_cons, maxByAux]
    by_cases hc : key (f cur) < key (f y)
    · rw [if_pos hc, if_pos hc, ih]
    · rw [if_neg hc, if_neg hc, ih]

theorem le_foldl_max (l : List Nat) :
    ∀ a : Nat, a ≤ l.foldl Nat.max a ∧ ∀ x ∈ l, x ≤ l.foldl Nat.max a := by
  induction l with
  | nil => intro a; exact ⟨le_refl a, by simp⟩
  | cons y ys ih =>
    intro a
    have h := ih (Nat.max a y)
    rw [List.foldl_cons]
    refine ⟨le_trans (Nat.le_max_left a y) h.1, ?_⟩
    intro x hx
    rcases List.mem_cons.mp hx with rfl | hx2
    · exact le_trans (Nat.le_max_right a x) h.1
    · exact h.2 x hx2

theorem foldl_max_le (l : List Nat) :
    ∀ (a b : Nat), a ≤ b → (∀ x ∈ l, x ≤ b) → l.foldl Nat.max a ≤ b := by
  induction l with
  | nil => intro a b hab _; simpa using hab
  | cons y ys ih =>
    intro a b hab hall
    rw [List.foldl_cons]
    exact ih _ b (Nat.max_le.mpr ⟨hab, hall y (List.mem_cons_self _ _)⟩)
      (fun x hx => hall x (List.mem_cons_of_mem _ hx))

theorem padRight_length_of_le {r : List String} {n : Nat} (h : r.length ≤ n) :
    (padRight n r).length = n := by
  simp only [padRight, List.length_append, List.length_replicate]
  omega

theorem headerOf_length (cal : List (String × Entry)) (s : Segment) :
    (headerOf cal s).length = (valuesOf cal s).length := by
  have h := rowCells_length cal (filteredDates cal s.start_date s.end_date) 1
  simp only [headerOf, valuesOf, build_wide_row, List.length_cons]
  omega

theorem maxRowWidth_eq (cal : List (String × Entry)) (segments : List Segment) :
    (segments.map (valuesOf cal)).foldl (fun m r => Nat.max m r.length) 0
      = maxRowWidth cal segments := by
  rw [maxRowWidth, List.foldl_map, List.foldl_map]

theorem assembleTable_cons (cal : List (String × Entry)) (s0 : Segment) (ss : List Segment) :
    assembleTable cal (s0 :: ss) =
      Except.ok
        (padRight (maxRowWidth cal (s0 :: ss))
           (maxByAux List.length (headerOf cal s0) (ss.map (headerOf cal))),
         ((s0 :: ss).map (valuesOf cal)).map (padRight (maxRowWidth cal (s0 :: ss)))) := by
  simp only [assembleTable, maxRowWidth_eq]
  rfl

/-- C7: for every non-empty segment list, assembly returns a rectangular
table: with maxWidth the maximum value-row length over all segments, every
row is the segment's values list padded on the right with empty strings to
maxWidth, and the header is the header of the segment that produced the
widest row — ties broken by first occurrence in segment order — itself
padded to maxWidth. -/
theorem c7_table_assembly (cal : List (String × Entry)) (segments : List Segment)
    (h : segments ≠ []) :
    ∃ hdr rows,
      assembleTable cal segments = Except.ok (hdr, rows) ∧
      rows = segments.map (fun s => padRight (maxRowWidth cal segments) (valuesOf cal s)) ∧
      (∀ r ∈ rows, r.length = maxRowWidth cal segments) ∧
      hdr.length = maxRowWidth cal segments ∧
      ∃ segs₁ sMax segs₂,
        segments = segs₁ ++ sMax :: segs₂ ∧
        (valuesOf cal sMax).length = maxRowWidth cal segments ∧
        (∀ s ∈ segs₁, (valuesOf cal s).length < maxRowWidth cal segments) ∧
        hdr = padRight (maxRowWidth cal segments) (headerOf cal sMax) := by
  obtain ⟨s0, ss, rfl⟩ : ∃ s0 ss, segments = s0 :: ss := by
    cases segments with
    | nil => exact absurd rfl h
    | cons a l => exact ⟨a, l, rfl⟩
  obtain ⟨l₁, l₂, hsp, hmaxk, hbef⟩ := maxByAux_split (fun s => (headerOf cal s).length) ss s0
  set sMax := maxByAux (fun s => (headerOf cal s).length) s0 ss with hsMax
  have hmem : sMax ∈ s0 :: ss := by
    rw [hsp]
    exact List.mem_append_right _ (List.mem_cons_self _ _)
  have hvmax : ∀ y ∈ s0 :: ss, (valuesOf cal y).length ≤ (valuesOf cal sMax).length := by
    intro y hy
    have hk := hmaxk y hy
    rwa [headerOf_length cal y, headerOf_length cal sMax] at hk
  have hM : maxRowWidth cal (s0 :: ss) = (valuesOf cal sMax).length := by
    apply le_antisymm
    · apply foldl_max_le
      · exact Nat.zero_le _
      · intro x hx
        obtain ⟨s, hs, rfl⟩ := List.mem_map.mp hx
        exact hvmax s hs
    · exact (le_foldl_max ((s0 :: ss).map (fun s => (valuesOf cal s).length)) 0).2 _
        (List.mem_map_of_mem _ hmem)
  have hhdr : maxByAux List.length (headerOf cal s0) (List.map (headerOf cal) ss)
      = headerOf cal sMax :=
    maxByAux_map (headerOf cal) List.length ss s0
  refine ⟨padRight (maxRowWidth cal (s0 :: ss)) (headerOf cal sMax),
          ((s0 :: ss).map (valuesOf cal)).map (padRight (maxRowWidth cal (s0 :: ss))),
          ?_, ?_, ?_, ?_, l₁, sMax, l₂, hsp, hM.symm, ?_, rfl⟩
  · rw [assembleTable_cons, hhdr]
  · rw [List.map_map]
    rfl
  · intro r hr
    obtain ⟨v, hv, rfl⟩ := List.mem_map.mp hr
    obtain ⟨s, hs, rfl⟩ := List.mem_map.mp hv
    exact padRight_length_of_le (hM ▸ hvmax s hs)
  · exact padRight_length_of_le (le_of_eq ((headerOf_length cal sMax).trans hM.symm))
  · intro s hs
    have hk := hbef s hs
    rw [headerOf_length cal s, headerOf_length cal sMax] at hk
    rw [hM]
    exact hk

theorem c7_table_assembly_witness :
    [(⟨"A", some "2025-01-01", some "2025-01-01"⟩ : Segment), ⟨"B", none, none⟩] ≠ [] ∧
    (∃ hdr rows,
      assembleTable [("2025-01-01", ⟨none, some "22:00:00"⟩),
          ("2025-01-02", ⟨some "08:00:00", none⟩)]
          [⟨"A", some "2025-01-01", some "2025-01-01"⟩, ⟨"B", none, none⟩]
        = Except.ok (hdr, rows) ∧
      rows = [⟨"A", some "2025-01-01", some "2025-01-01"⟩,
          (⟨"B", none, none⟩ : Segment)].map (fun s =>
        padRight (maxRowWidth [("2025-01-01", ⟨none, some "22:00:00"⟩),
            ("2025-01-02", ⟨some "08:00:00", none⟩)]
            [⟨"A", some "2025-01-01", some "2025-01-01"⟩, ⟨"B", none, none⟩])
          (valuesOf [("2025-01-01", ⟨none, some "22:00:00"⟩),
            ("2025-01-02", ⟨some "08:00:00", none⟩)] s)) ∧
      (∀ r ∈ rows, r.length = maxRowWidth [("2025-01-01", ⟨none, some "22:00:00"⟩),
          ("2025-01-02", ⟨some "08:00:00", none⟩)]
          [⟨"A", some "2025-01-01", some "2025-01-01"⟩, ⟨"B", none, none⟩]) ∧
      hdr.length = maxRowWidth [("2025-01-01", ⟨none, some "22:00:00"⟩),
          ("2025-01-02", ⟨some "08:00:00", none⟩)]
          [⟨"A", some "2025-01-01", some "2025-01-01"⟩, ⟨"B", none, none⟩] ∧
      ∃ segs₁ sMax segs₂,
        ([⟨"A", some "2025-01-01", some "2025-01-01"⟩, ⟨"B", none, none⟩] :
            List Segment) = segs₁ ++ sMax :: segs₂ ∧
        (valuesOf [("2025-01-01", ⟨none, some "22:00:00"⟩),
            ("2025-01-02", ⟨some "08:00:00", none⟩)] sMax).length
          = maxRowWidth [("2025-01-01", ⟨none, some "22:00:00"⟩),
              ("2025-01-02", ⟨some "08:00:00", none⟩)]
              [⟨"A", some "2025-01-01", some "2025-01-01"⟩, ⟨"B", none, none⟩] ∧
        (∀ s ∈ segs₁, (valuesOf [("2025-01-01", ⟨none, some "22:00:00"⟩),
            ("2025-01-02", ⟨some "08:00:00", none⟩)] s).length
          < maxRowWidth [("2025-01-01", ⟨none, some "22:00:00"⟩),
              ("2025-01-02", ⟨some "08:00:00", none⟩)]
              [⟨"A", some "2025-01-01", some "2025-01-01"⟩, ⟨"B", none, none⟩]) ∧
        hdr = padRight (maxRowWidth [("2025-01-01", ⟨none, some "22:00:00"⟩),
            ("2025-01-02", ⟨some "08:00:00", none⟩)]
            [⟨"A", some "2025-01-01", some "2025-01-01"⟩, ⟨"B", none, none⟩])
          (headerOf [("2025-01-01", ⟨none, some "22:00:00"⟩),
            ("2025-01-02", ⟨some "08:00:00", none⟩)] sMax)) :=
  ⟨by decide,
   c7_table_assembly [("2025-01-01", ⟨none, some "22:00:00"⟩),
       ("2025-01-02", ⟨some "08:00:00", none⟩)]
     [⟨"A", some "2025-01-01", some "2025-01-01"⟩, ⟨"B", none, none⟩] (by decide)⟩

end SleepLog
